import Mathlib

/-!
Verification of the category taxonomy engine of the shoe-shop backend.

The definitions below are a shallow embedding of the Python source:
`products/models.py` (Category, Category.clean), `products/utils.py`
(assign_category_order), `products/serializers.py` (CategorySerializer,
CategoryCreateUpdateSerializer) and `products/views.py`
(CategoryViewSet.hierarchy / destroy).  Database rows become a `List`,
querysets become filters over it, and the unbounded while-loops of the
source (parent-chain walks, slug dedup) become fuelled recursions with
fuel taken from the database size, exactly enough for acyclic data.
-/

namespace ShoeShop

/-- Embedding of a products.models.Category row: the fields the category
engine reads (id, name, slug, description, parent FK id,
top_level_category, status, order). -/
structure Category where
  id : Nat
  name : String
  slug : String
  description : Option String := none
  parent : Option Nat := none
  top_level_category : Option String := none
  status : String := "active"
  order : Nat := 0
  deriving DecidableEq, Repr

/-- Validation failures raised by the category serializers and model clean,
one constructor per distinct raise site of the source, named after the
spec's error taxonomy. -/
inductive VErr where
  | invalidTopLevelChoice
  | duplicateTopLevelType
  | missingParentOrType
  | bothParentAndType
  | maxDepthExceeded
  | invalidStatus
  | immutableTopLevelName
  | immutableTopLevelParent
  | immutableTopLevelType
  | selfParent
  | parentIsRoot
  deriving DecidableEq, Repr

/-- Embedding of the serializer validated_data dict: an outer `none` means
the key is absent from the payload; for parent, `some none` is an explicit
null value. -/
structure CategoryInput where
  name : Option String := none
  description : Option String := none
  parent : Option (Option Nat) := none
  status : Option String := none
  top_level_category : Option String := none
  deriving DecidableEq, Repr

/-- Python truthiness of data.get("parent"). -/
def parentTruthy (d : CategoryInput) : Bool :=
  match d.parent with
  | some (some _) => true
  | _ => false

/-- Python truthiness of data.get("top_level_category"). -/
def tlcTruthy (d : CategoryInput) : Bool :=
  match d.top_level_category with
  | some t => t != ""
  | none => false

/-- ASCII case of Python str.lower, applied characterwise. -/
def pyLowerChar (c : Char) : Char :=
  if 65 ≤ c.toNat ∧ c.toNat ≤ 90 then Char.ofNat (c.toNat + 32) else c

/-- ASCII case of Python str.lower. -/
def pyLower (s : String) : String := String.mk (s.data.map pyLowerChar)

/-- ASCII uppercasing of one character. -/
def pyUpperChar (c : Char) : Char :=
  if 97 ≤ c.toNat ∧ c.toNat ≤ 122 then Char.ofNat (c.toNat - 32) else c

/-- ASCII case of Python str.capitalize: first character uppercased, the
rest lowered. -/
def pyCapitalize (s : String) : String :=
  match s.data with
  | [] => ""
  | c :: cs => String.mk (pyUpperChar c :: cs.map pyLowerChar)

/-- Character kept by django slugify after lowering: the regex class
w, whitespace, or hyphen (ASCII fragment). -/
def slugKeep (c : Char) : Bool := c.isAlphanum || c == '_' || c == ' ' || c == '-'

/-- Collapse every run of whitespace or hyphens into a single hyphen; the
flag records whether the previous character belonged to such a run. -/
def squeezeDashes : Bool → List Char → List Char
  | _, [] => []
  | inRun, c :: cs =>
    if c == ' ' || c == '-' then
      if inRun then squeezeDashes true cs else '-' :: squeezeDashes true cs
    else c :: squeezeDashes false cs

/-- Python str.strip("-_"): remove hyphens and underscores from both ends. -/
def stripDashUnderscore (l : List Char) : List Char :=
  ((l.dropWhile fun c => c == '-' || c == '_').reverse.dropWhile
    fun c => c == '-' || c == '_').reverse

/-- Embedding of django.utils.text.slugify restricted to ASCII input:
lowercase, drop characters outside the kept class, collapse hyphen and
whitespace runs to a single hyphen, strip hyphens and underscores from
both ends. -/
def slugify (s : String) : String :=
  String.mk (stripDashUnderscore (squeezeDashes false ((s.data.map pyLowerChar).filter slugKeep)))

/-- Look up the row with the given primary key. -/
def findCat (db : List Category) (i : Nat) : Option Category :=
  db.find? fun c => c.id == i

/-- The parent id reached from node id i by one hop (none when i is
absent from the database or is a root). -/
def parentOf (db : List Category) (i : Nat) : Option Nat :=
  (findCat db i).bind fun c => c.parent

/-- Fuelled walk up the parent chain; true when the walk reaches a root
within the fuel. -/
def chainOk (db : List Category) : Nat → Option Nat → Bool
  | _, none => true
  | 0, some _ => false
  | fuel+1, some i => chainOk db fuel (parentOf db i)

/-- Number of nodes on the parent chain starting at the given id, the
start node included. -/
def chainLen (db : List Category) : Nat → Option Nat → Nat
  | _, none => 0
  | 0, some _ => 0
  | fuel+1, some i => 1 + chainLen db fuel (parentOf db i)

/-- Ids on the parent chain starting at the given id, the start node
first. -/
def ancestorChain (db : List Category) : Nat → Option Nat → List Nat
  | _, none => []
  | 0, some _ => []
  | fuel+1, some i => i :: ancestorChain db fuel (parentOf db i)

/-- Depth of the node with the given id; a root has depth 1. -/
def depthOfId (db : List Category) (i : Nat) : Nat :=
  chainLen db db.length (some i)

/-- Embedding of the depth while-loop of
CategoryCreateUpdateSerializer.validate: starting from the supplied parent
with depth 1, hop to each ancestor, increment, and answer true as soon as
the depth exceeds maxDepth. -/
def depthLoop (db : List Category) (maxDepth : Nat) : Nat → Option Nat → Nat → Bool
  | _, none, _ => false
  | 0, some _, _ => false
  | fuel+1, some i, depth =>
    if maxDepth < depth + 1 then true
    else depthLoop db maxDepth fuel (parentOf db i) (depth + 1)

/-- CategoryChoices.values of products/choices.py. -/
def categoryChoicesValues : List String := ["shoes", "clothing"]

/-- CategoryStatusChoices.values of products/choices.py. -/
def categoryStatusValues : List String := ["draft", "active", "inactive", "archived"]

/-- Lookup in dict(CategoryChoices.choices); only reached after the choice
membership check of the source, so the final branch is dead. -/
def choiceLabel (v : String) : String :=
  if v == "clothing" then "Clothing" else if v == "shoes" then "Shoes" else ""

/-- Embedding of products.utils.assign_category_order.  The database read
is passed as an Except value so that the try/except of the source is
visible: a failed lookup falls back to 1. -/
def assign_category_order (dbq : Except Unit (List Category)) (parent : Option Nat) : Nat :=
  match dbq with
  | .error _ => 1
  | .ok db =>
    match parent with
    | some p => ((db.filter fun c => c.parent == some p).map fun c => c.order).foldl max 0 + 1
    | none => ((db.filter fun c => c.parent == none).map fun c => c.order).foldl max 0 + 1

/-- Embedding of the while-loop of Category.clean that appends -1, -2, ...
to the base slug until no distinct row owns the candidate. -/
def findFreeSlug (db : List Category) (selfPk : Nat) (base : String) :
    Nat → String → Nat → String
  | 0, cand, _ => cand
  | fuel+1, cand, counter =>
    if db.any (fun c => c.slug == cand && c.id != selfPk) then
      findFreeSlug db selfPk base fuel (base ++ "-" ++ toString counter) (counter + 1)
    else cand

/-- Top-level-category block of Category.clean: validate a stored
truthy value against the choices and reset the display name from the
choices mapping. -/
def cleanTlc (c : Category) : Except VErr Category :=
  match c.top_level_category with
  | some t =>
    if t == "" then .ok c
    else if categoryChoicesValues.contains t then .ok { c with name := choiceLabel t }
    else .error VErr.invalidTopLevelChoice
  | none => .ok c

/-- Embedding of Category.clean: validate the status, derive the display
name for rows carrying a top_level_category, assign a deduplicated slug
when the slug is empty, assign the order when it is zero. -/
def modelClean (db : List Category) (c : Category) : Except VErr Category :=
  if !(categoryStatusValues.contains c.status) then .error VErr.invalidStatus
  else
    match cleanTlc c with
    | .error e => .error e
    | .ok c1 =>
      let c2 :=
        if c1.slug == "" then
          { c1 with slug := findFreeSlug db c1.id (slugify c1.name) (db.length + 1) (slugify c1.name) 1 }
        else c1
      .ok (if c2.order == 0 then { c2 with order := assign_category_order (.ok db) c2.parent } else c2)

/-- First block of CategoryCreateUpdateSerializer.validate: lowercase and
check a supplied top_level_category against the choices, then reject a
duplicate carrier, excluding the instance being updated. -/
def validateTlc (db : List Category) (inst : Option Category) (data : CategoryInput) :
    Except VErr CategoryInput :=
  match data.top_level_category with
  | some t =>
    if t == "" then .ok data
    else if !(categoryChoicesValues.contains (pyLower t)) then .error VErr.invalidTopLevelChoice
    else if db.any (fun c => c.top_level_category == some (pyLower t) &&
        inst.all fun i => c.id != i.id) then
      .error VErr.duplicateTopLevelType
    else .ok { data with top_level_category := some (pyLower t) }
  | none => .ok data

/-- Second block of CategoryCreateUpdateSerializer.validate: on create
require one of parent or top_level_category; on update reject both
together. -/
def validateExclusive (inst : Option Category) (data : CategoryInput) : Except VErr Unit :=
  if inst.isNone then
    if !(parentTruthy data) && !(tlcTruthy data) then .error VErr.missingParentOrType
    else .ok ()
  else
    if parentTruthy data && tlcTruthy data then .error VErr.bothParentAndType
    else .ok ()

/-- Third block of CategoryCreateUpdateSerializer.validate: when a parent
is supplied, walk its ancestor chain and reject a new node that would sit
deeper than maxDepth. -/
def validateDepthBlock (db : List Category) (maxDepth : Nat) (data : CategoryInput) :
    Except VErr Unit :=
  match data.parent with
  | some (some p) =>
    if depthLoop db maxDepth db.length (some p) 1 then .error VErr.maxDepthExceeded
    else .ok ()
  | _ => .ok ()

/-- Embedding of CategoryCreateUpdateSerializer.validate as its three
sequential blocks; inst is self.instance, none on a create. -/
def validateInput (db : List Category) (maxDepth : Nat) (inst : Option Category)
    (data : CategoryInput) : Except VErr CategoryInput := do
  let data ← validateTlc db inst data
  validateExclusive inst data
  validateDepthBlock db maxDepth data
  pure data

/-- Embedding of CategoryCreateUpdateSerializer.create followed by the
model save (Category.clean) and the row insertion; newId is the fresh
primary key handed out by the database. -/
def createCategory (db : List Category) (maxDepth : Nat) (newId : Nat)
    (data : CategoryInput) : Except VErr (List Category × Category) := do
  let vd ← validateInput db maxDepth none data
  let base : Category :=
    { id := newId
      name := vd.name.getD ""
      slug := ""
      description := vd.description
      parent := vd.parent.getD none
      top_level_category := vd.top_level_category
      status := vd.status.getD "active"
      order := 0 }
  let base :=
    if parentTruthy vd then base
    else
      let nm := pyCapitalize (pyLower (vd.top_level_category.getD ""))
      { base with name := nm, slug := slugify nm }
  let saved ← modelClean db base
  pure (db ++ [saved], saved)

/-- Status block of CategoryCreateUpdateSerializer.update: validate and
apply a supplied status. -/
def updateStatus (inst : Category) (vd : CategoryInput) : Except VErr Category :=
  match vd.status with
  | some s =>
    if !(categoryStatusValues.contains s) then .error VErr.invalidStatus
    else .ok { inst with status := s }
  | none => .ok inst

/-- Immutability guards of CategoryCreateUpdateSerializer.update: a root
keeps its name and parent, and top_level_category never changes. -/
def updateGuards (inst1 : Category) (vd : CategoryInput) : Except VErr Unit :=
  if inst1.parent.isNone && vd.name.isSome then .error VErr.immutableTopLevelName
  else if inst1.parent.isNone && vd.parent.isSome then .error VErr.immutableTopLevelParent
  else if vd.top_level_category.isSome then .error VErr.immutableTopLevelType
  else .ok ()

/-- Parent reassignment block of CategoryCreateUpdateSerializer.update:
reject the node itself and root nodes as new parents. -/
def updateParent (db : List Category) (inst2 : Category) (vd : CategoryInput) :
    Except VErr Category :=
  match vd.parent with
  | some (some p) =>
    if p == inst2.id then .error VErr.selfParent
    else if (parentOf db p).isNone then .error VErr.parentIsRoot
    else .ok { inst2 with parent := some p }
  | _ => .ok inst2

/-- Embedding of CategoryCreateUpdateSerializer.update followed by
ModelSerializer.update (setattr of every validated field) and the model
save (Category.clean). -/
def updateCategory (db : List Category) (maxDepth : Nat) (inst : Category)
    (data : CategoryInput) : Except VErr Category :=
  match validateInput db maxDepth (some inst) data with
  | .error e => .error e
  | .ok vd =>
    match updateStatus inst vd with
    | .error e => .error e
    | .ok inst1 =>
      match updateGuards inst1 vd with
      | .error e => .error e
      | .ok _ =>
        let inst2 :=
          match vd.name with
          | some n => { inst1 with name := n, slug := slugify n }
          | none => inst1
        match updateParent db inst2 vd with
        | .error e => .error e
        | .ok inst3 =>
          modelClean db
            { inst3 with
              name := vd.name.getD inst3.name
              description := match vd.description with | some d => some d | none => inst3.description
              parent := match vd.parent with | some p => p | none => inst3.parent
              status := vd.status.getD inst3.status }

/-- Node of the serialized hierarchy answer. -/
structure SerTree where
  id : Nat
  children : List SerTree
  deriving Repr

/-- Insert one row into a list already sorted by order. -/
def insertByOrder (c : Category) : List Category → List Category
  | [] => [c]
  | d :: ds => if c.order ≤ d.order then c :: d :: ds else d :: insertByOrder c ds

/-- Stable embedding of the order_by("order") queryset sort. -/
def sortByOrder : List Category → List Category
  | [] => []
  | c :: cs => insertByOrder c (sortByOrder cs)

/-- Membership test behind MPTT get_descendants: the strict ancestor chain
of m contains the given id. -/
def isDescendant (db : List Category) (rootId : Nat) (m : Category) : Bool :=
  (ancestorChain db db.length m.parent).contains rootId

/-- obj.get_children().order_by("order"). -/
def childrenOf (db : List Category) (i : Nat) : List Category :=
  sortByOrder (db.filter fun c => c.parent == some i)

/-- obj.get_descendants().order_by("order"). -/
def descendantsOf (db : List Category) (i : Nat) : List Category :=
  sortByOrder (db.filter fun c => isDescendant db i c)

/-- Embedding of the recursion driven by CategorySerializer.get_children:
serialize one node under a context depth (none models an absent depth
key).  Fuel bounds the recursion, which terminates on acyclic data. -/
def serializeNode (db : List Category) : Nat → Option Nat → Category → SerTree
  | 0, _, c => ⟨c.id, []⟩
  | fuel+1, depth, c =>
    match depth with
    | some 0 => ⟨c.id, []⟩
    | none => ⟨c.id, (descendantsOf db c.id).map (serializeNode db fuel none)⟩
    | some 1 => ⟨c.id, (childrenOf db c.id).map (serializeNode db fuel (some 0))⟩
    | some (k+2) => ⟨c.id, (childrenOf db c.id).map (serializeNode db fuel (some (k+1)))⟩

/-- Serializer following the words of the spec for an absent depth: the
node with all of its descendants, recursively, as a properly nested
subtree in which every node lists only its immediate children.  Written
only to compare the source behaviour against the claim. -/
def specNestedFull (db : List Category) : Nat → Category → SerTree
  | 0, c => ⟨c.id, []⟩
  | fuel+1, c => ⟨c.id, (childrenOf db c.id).map (specNestedFull db fuel)⟩

/-- Value of the depth query parameter as CategoryViewSet.hierarchy sees
it: an integer, or a string rejected by int(). -/
inductive DepthParam where
  | int (i : Int)
  | malformed
  deriving DecidableEq, Repr

/-- Embedding of the depth handling of CategoryViewSet.hierarchy: default
1 when absent, reject negatives and non-integers, clamp positive values
to maxDepth. -/
def effectiveDepth (maxDepth : Nat) (q : Option DepthParam) : Except Unit Int :=
  match q.getD (.int 1) with
  | .malformed => .error ()
  | .int d =>
    if d < 0 then .error ()
    else .ok (if 0 < d then min d (maxDepth : Int) else d)

/-- Embedding of CategoryViewSet.hierarchy: on an accepted depth value,
serialize every root node with that depth; on a rejected value, answer
400 without traversing anything. -/
def hierarchyEndpoint (db : List Category) (maxDepth : Nat) (q : Option DepthParam) :
    Except Unit (List SerTree) :=
  match effectiveDepth maxDepth q with
  | .error e => .error e
  | .ok d => .ok ((db.filter fun c => c.parent == none).map
      (serializeNode db (db.length + 1) (some d.toNat)))

/-- Subtree membership: rootId lies on the ancestor chain of i, i itself
included. -/
def inSubtree (db : List Category) (rootId i : Nat) : Bool :=
  (ancestorChain db db.length (some i)).contains rootId

/-- Embedding of CategoryViewSet.destroy with the parent FK declared
on_delete=CASCADE: the row and every row whose parent chain reaches it
are removed together. -/
def deleteCategory (db : List Category) (rootId : Nat) : List Category :=
  db.filter fun m => !(inSubtree db rootId m.id)

/-- Every row is the first match for its own primary key (keys are
unique). -/
def FindConsistent (db : List Category) : Prop :=
  ∀ m ∈ db, findCat db m.id = some m

/-- Every parent reference resolves to a row of the database. -/
def RefIntegrity (db : List Category) : Prop :=
  ∀ m ∈ db, ∀ p, m.parent = some p → (findCat db p).isSome = true

/-- Every parent chain reaches a root within db.length hops, so the
forest is acyclic. -/
def Acyclic (db : List Category) : Prop :=
  ∀ m ∈ db, chainOk db db.length (some m.id) = true

/-- Siblings sharing the given parent (all roots when the parent is
absent); the grouping read by assign_category_order. -/
def siblingsOf (db : List Category) (parent : Option Nat) : List Category :=
  match parent with
  | some p => db.filter fun c => c.parent == some p
  | none => db.filter fun c => c.parent == none

theorem chainOk_mono (db : List Category) :
    ∀ (f g : Nat) (o : Option Nat), f ≤ g → chainOk db f o = true → chainOk db g o = true := by
  intro f
  induction f with
  | zero =>
    intro g o _ h
    cases o with
    | none => simp [chainOk]
    | some i => simp [chainOk] at h
  | succ f ih =>
    intro g o hfg h
    cases o with
    | none => simp [chainOk]
    | some i =>
      cases g with
      | zero => omega
      | succ g =>
        simp only [chainOk] at h ⊢
        exact ih g _ (by omega) h

theorem chainLen_stable (db : List Category) :
    ∀ (f g : Nat) (o : Option Nat), f ≤ g → chainOk db f o = true →
      chainLen db g o = chainLen db f o := by
  intro f
  induction f with
  | zero =>
    intro g o _ h
    cases o with
    | none => cases g <;> simp [chainLen]
    | some i => simp [chainOk] at h
  | succ f ih =>
    intro g o hfg h
    cases o with
    | none => cases g <;> simp [chainLen]
    | some i =>
      cases g with
      | zero => omega
      | succ g =>
        simp only [chainOk] at h
        simp only [chainLen]
        rw [ih g _ (by omega) h]

theorem ancestorChain_stable (db : List Category) :
    ∀ (f g : Nat) (o : Option Nat), f ≤ g → chainOk db f o = true →
      ancestorChain db g o = ancestorChain db f o := by
  intro f
  induction f with
  | zero =>
    intro g o _ h
    cases o with
    | none => cases g <;> simp [ancestorChain]
    | some i => simp [chainOk] at h
  | succ f ih =>
    intro g o hfg h
    cases o with
    | none => cases g <;> simp [ancestorChain]
    | some i =>
      cases g with
      | zero => omega
      | succ g =>
        simp only [chainOk] at h
        simp only [ancestorChain]
        rw [ih g _ (by omega) h]

theorem chainLen_pos (db : List Category) (f : Nat) (i : Nat)
    (h : chainOk db f (some i) = true) : 0 < chainLen db f (some i) := by
  cases f with
  | zero => simp [chainOk] at h
  | succ f => simp [chainLen]

theorem depthLoop_eq (db : List Category) (m : Nat) :
    ∀ (f : Nat) (o : Option Nat) (d : Nat), chainOk db f o = true →
      depthLoop db m f o d =
        decide (0 < chainLen db f o ∧ m < d + chainLen db f o) := by
  intro f
  induction f with
  | zero =>
    intro o d h
    cases o with
    | none => simp [depthLoop, chainLen]
    | some i => simp [chainOk] at h
  | succ f ih =>
    intro o d h
    cases o with
    | none => simp [depthLoop, chainLen]
    | some i =>
      simp only [chainOk] at h
      simp only [depthLoop, chainLen]
      by_cases hc : m < d + 1
      · rw [if_pos hc]
        have : 0 < 1 + chainLen db f (parentOf db i) ∧
            m < d + (1 + chainLen db f (parentOf db i)) := by omega
        simp [this]
      · rw [if_neg hc, ih _ _ h, decide_eq_decide]
        omega

theorem mem_insertByOrder (c x : Category) (l : List Category) :
    x ∈ insertByOrder c l ↔ x = c ∨ x ∈ l := by
  induction l with
  | nil => simp [insertByOrder]
  | cons d ds ih =>
    simp only [insertByOrder]
    by_cases h : c.order ≤ d.order
    · rw [if_pos h]; simp
    · rw [if_neg h]
      simp only [List.mem_cons, ih]
      tauto

theorem mem_sortByOrder (x : Category) (l : List Category) :
    x ∈ sortByOrder l ↔ x ∈ l := by
  induction l with
  | nil => simp [sortByOrder]
  | cons c cs ih =>
    simp only [sortByOrder, mem_insertByOrder, ih, List.mem_cons]

theorem contains_iff_mem_nat (l : List Nat) (a : Nat) : l.contains a = true ↔ a ∈ l := by
  simp [List.contains, List.elem_iff]

theorem findCat_isSome_of_mem (db : List Category) (m : Category) (hm : m ∈ db) :
    (findCat db m.id).isSome = true := by
  rw [findCat, List.find?_isSome]
  exact ⟨m, hm, by simp⟩

theorem findCat_append (db l : List Category) (i : Nat)
    (h : (findCat db i).isSome = true) : findCat (db ++ l) i = findCat db i := by
  rw [findCat, findCat, List.find?_append]
  cases hf : List.find? (fun c => c.id == i) db with
  | none => rw [findCat, hf] at h; simp at h
  | some c => simp [Option.or]

theorem parentOf_append (db l : List Category) (i : Nat)
    (h : (findCat db i).isSome = true) : parentOf (db ++ l) i = parentOf db i := by
  rw [parentOf, parentOf, findCat_append db l i h]

theorem chain_append (db l : List Category) (hri : RefIntegrity db) :
    ∀ (f : Nat) (o : Option Nat),
      (∀ i, o = some i → (findCat db i).isSome = true) →
      chainOk db f o = true →
      chainOk (db ++ l) f o = true ∧
      chainLen (db ++ l) f o = chainLen db f o ∧
      ancestorChain (db ++ l) f o = ancestorChain db f o := by
  intro f
  induction f with
  | zero =>
    intro o ho h
    cases o with
    | none => simp [chainOk, chainLen, ancestorChain]
    | some i => simp [chainOk] at h
  | succ f ih =>
    intro o ho h
    cases o with
    | none => simp [chainOk, chainLen, ancestorChain]
    | some i =>
      have hi : (findCat db i).isSome = true := ho i rfl
      have hp : parentOf (db ++ l) i = parentOf db i := parentOf_append db l i hi
      simp only [chainOk] at h
      simp only [chainOk, chainLen, ancestorChain]
      rw [hp]
      have hnext : ∀ j, parentOf db i = some j → (findCat db j).isSome = true := by
        intro j hj
        obtain ⟨c, hc⟩ := Option.isSome_iff_exists.mp hi
        have hcm : c ∈ db := by
          rw [findCat] at hc
          exact List.mem_of_find?_eq_some hc
        rw [parentOf, hc] at hj
        exact hri c hcm j hj
      obtain ⟨h1, h2, h3⟩ := ih (parentOf db i) hnext h
      exact ⟨h1, by rw [h2], by rw [h3]⟩

theorem le_foldl_max (l : List Nat) : ∀ a : Nat, a ≤ l.foldl max a := by
  induction l with
  | nil => intro a; simp
  | cons x xs ih =>
    intro a
    simp only [List.foldl_cons]
    exact le_trans (le_max_left a x) (ih (max a x))

theorem foldl_max_ge_mem (l : List Nat) :
    ∀ a : Nat, ∀ x ∈ l, x ≤ l.foldl max a := by
  induction l with
  | nil => intro a x hx; simp at hx
  | cons y ys ih =>
    intro a x hx
    simp only [List.mem_cons] at hx
    rcases hx with rfl | hx
    · exact le_trans (le_max_right a x) (le_foldl_max ys (max a x))
    · exact ih (max a y) x hx

theorem foldl_max_mem (l : List Nat) :
    ∀ a : Nat, l.foldl max a = a ∨ l.foldl max a ∈ l := by
  induction l with
  | nil => intro a; simp
  | cons x xs ih =>
    intro a
    simp only [List.foldl_cons]
    rcases ih (max a x) with h | h
    · rcases Nat.le_total a x with hax | hax
      · right; rw [h, max_eq_right hax]; exact List.mem_cons_self _ _
      · left; rw [h, max_eq_left hax]
    · right; exact List.mem_cons_of_mem _ h

theorem foldl_max_zero_mem (l : List Nat) (hl : l ≠ []) : l.foldl max 0 ∈ l := by
  rcases foldl_max_mem l 0 with h | h
  · cases l with
    | nil => exact absurd rfl hl
    | cons x xs =>
      have hx : x ≤ (x :: xs).foldl max 0 :=
        foldl_max_ge_mem _ 0 x (List.mem_cons_self x xs)
      rw [h] at hx
      have hx0 : x = 0 := Nat.le_zero.mp hx
      rw [h, ← hx0]
      exact List.mem_cons_self x xs
  · exact h

theorem exceptBind_ok {ε α β : Type} {x : Except ε α} {f : α → Except ε β} {b : β}
    (h : (x >>= f) = .ok b) : ∃ a, x = .ok a ∧ f a = .ok b := by
  cases x with
  | error e => simp [Bind.bind, Except.bind] at h
  | ok a =>
    refine ⟨a, rfl, ?_⟩
    simpa [Bind.bind, Except.bind] using h

theorem exceptMap_ok {ε α β : Type} {x : Except ε α} {g : α → β} {b : β}
    (h : (g <$> x) = .ok b) : ∃ a, x = .ok a ∧ g a = b := by
  cases x with
  | error e => simp [Functor.map, Except.map] at h
  | ok a =>
    refine ⟨a, rfl, ?_⟩
    have := h
    simp [Functor.map, Except.map] at this
    exact this

theorem validateTlc_ok_fields (db : List Category) (inst : Option Category)
    (data d : CategoryInput) (h : validateTlc db inst data = .ok d) :
    d.parent = data.parent ∧ d.name = data.name ∧ d.status = data.status ∧
    d.description = data.description := by
  rw [validateTlc] at h
  split at h
  · split at h
    · injection h with h2
      subst h2
      exact ⟨rfl, rfl, rfl, rfl⟩
    · split at h
      · simp at h
      · split at h
        · simp at h
        · injection h with h2
          subst h2
          exact ⟨rfl, rfl, rfl, rfl⟩
  · injection h with h2
    subst h2
    exact ⟨rfl, rfl, rfl, rfl⟩

theorem validateTlc_ok_presence (db : List Category) (inst : Option Category)
    (data d : CategoryInput) (h : validateTlc db inst data = .ok d) :
    d.top_level_category.isSome = data.top_level_category.isSome := by
  rw [validateTlc] at h
  split at h
  · rename_i t heq
    split at h
    · injection h with h2
      subst h2
      rfl
    · split at h
      · simp at h
      · split at h
        · simp at h
        · injection h with h2
          subst h2
          rw [heq]
          rfl
  · injection h with h2
    subst h2
    rfl

theorem validateTlc_ok_nodup (db : List Category) (inst : Option Category)
    (data d : CategoryInput) (h : validateTlc db inst data = .ok d) :
    ∀ v, v ≠ "" → d.top_level_category = some v →
      db.any (fun c => c.top_level_category == some v &&
        inst.all fun i => c.id != i.id) = false := by
  intro v hv hd
  rw [validateTlc] at h
  split at h
  · rename_i t heq
    split at h
    · rename_i ht
      injection h with h2
      subst h2
      rw [heq] at hd
      injection hd with hd2
      rw [← hd2] at hv
      exact absurd (by simpa using ht) hv
    · split at h
      · simp at h
      · split at h
        · simp at h
        · rename_i hany
          injection h with h2
          subst h2
          have hveq : pyLower t = v := by simpa using hd
          rw [← hveq]
          simpa using hany
  · rename_i heq
    injection h with h2
    subst h2
    rw [heq] at hd
    simp at hd

theorem validateInput_ok_inv (db : List Category) (m : Nat) (inst : Option Category)
    (data vd : CategoryInput) (h : validateInput db m inst data = .ok vd) :
    validateTlc db inst data = .ok vd ∧ validateExclusive inst vd = .ok () ∧
    validateDepthBlock db m vd = .ok () := by
  rw [validateInput] at h
  obtain ⟨d1, h1, h⟩ := exceptBind_ok h
  obtain ⟨u1, h2, h⟩ := exceptBind_ok h
  obtain ⟨u2, h3, h⟩ := exceptBind_ok h
  have hvd : d1 = vd := by
    simpa [Pure.pure, Except.pure] using h
  subst hvd
  cases u1
  cases u2
  exact ⟨h1, h2, h3⟩

theorem modelClean_ok_inv (db : List Category) (x y : Category)
    (h : modelClean db x = .ok y) :
    y.id = x.id ∧ y.parent = x.parent ∧ y.top_level_category = x.top_level_category ∧
    y.description = x.description ∧ y.status = x.status := by
  rw [modelClean] at h
  split at h
  · simp at h
  · split at h
    · simp at h
    · rename_i c1 hc1
      have hc1f : c1.id = x.id ∧ c1.parent = x.parent ∧
          c1.top_level_category = x.top_level_category ∧
          c1.description = x.description ∧ c1.status = x.status := by
        rw [cleanTlc] at hc1
        split at hc1
        · split at hc1
          · injection hc1 with h2
            subst h2
            exact ⟨rfl, rfl, rfl, rfl, rfl⟩
          · split at hc1
            · injection hc1 with h2
              subst h2
              exact ⟨rfl, rfl, rfl, rfl, rfl⟩
            · simp at hc1
        · injection hc1 with h2
          subst h2
          exact ⟨rfl, rfl, rfl, rfl, rfl⟩
      injection h with h2
      subst h2
      obtain ⟨e1, e2, e3, e4, e5⟩ := hc1f
      constructor
      · split <;> split <;> simp [e1]
      constructor
      · split <;> split <;> simp [e2]
      constructor
      · split <;> split <;> simp [e3]
      constructor
      · split <;> split <;> simp [e4]
      · split <;> split <;> simp [e5]

/-- Fixture: the Shoes root node. -/
def catShoes : Category :=
  { id := 1, name := "Shoes", slug := "shoes", top_level_category := some "shoes", order := 1 }

/-- Fixture: a depth-2 child of the Shoes root. -/
def catMens : Category :=
  { id := 2, name := "Men's", slug := "mens", parent := some 1, order := 1 }

/-- Fixture: a depth-3 child under catMens. -/
def catSneakers : Category :=
  { id := 3, name := "Sneakers", slug := "sneakers", parent := some 2, order := 1 }

/-- Fixture: a second depth-2 child of the Shoes root. -/
def catWomens : Category :=
  { id := 4, name := "Womens", slug := "womens", parent := some 1, order := 2 }

/-- Fixture database: the three-node chain Shoes - Men's - Sneakers. -/
def dbChain : List Category := [catShoes, catMens, catSneakers]

/-- Fixture database: the chain plus the Womens sibling. -/
def dbFour : List Category := [catShoes, catMens, catSneakers, catWomens]

/-- C10: the hierarchy endpoint applies min(d, max_depth) to a requested
integer depth d ≥ 1, keeps a requested 0 as 0, defaults an absent
parameter to 1, and answers an error without serializing anything when
the parameter is negative or not an integer. -/
theorem claim10_hierarchy_depth_clamp (m : Nat) :
    (∀ d : Int, 1 ≤ d → effectiveDepth m (some (.int d)) = .ok (min d (m : Int))) ∧
    effectiveDepth m (some (.int 0)) = .ok 0 ∧
    (1 ≤ m → effectiveDepth m none = .ok 1) ∧
    (∀ d : Int, d < 0 → ∀ db, hierarchyEndpoint db m (some (.int d)) = .error ()) ∧
    (∀ db, hierarchyEndpoint db m (some .malformed) = .error ()) := by
  refine ⟨?_, ?_, ?_, ?_, ?_⟩
  · intro d hd
    simp only [effectiveDepth, Option.getD]
    rw [if_neg (by omega), if_pos (by omega)]
  · simp [effectiveDepth]
  · intro hm
    simp only [effectiveDepth, Option.getD]
    rw [if_neg (by omega), if_pos (by omega)]
    congr 1
    omega
  · intro d hd db
    simp only [hierarchyEndpoint, effectiveDepth, Option.getD]
    rw [if_pos hd]
  · intro db
    simp [hierarchyEndpoint, effectiveDepth]

/-- C10 witness: concrete depths at max_depth 3 behave as the theorem
states. -/
theorem claim10_hierarchy_depth_clamp_witness :
    effectiveDepth 3 (some (.int 5)) = .ok (min (5 : Int) 3) ∧
    effectiveDepth 3 (some (.int 0)) = .ok 0 ∧
    effectiveDepth 3 none = .ok 1 ∧
    hierarchyEndpoint dbFour 3 (some (.int (-2))) = .error () ∧
    hierarchyEndpoint dbFour 3 (some .malformed) = .error () := by
  obtain ⟨h1, h2, h3, h4, h5⟩ := claim10_hierarchy_depth_clamp 3
  exact ⟨h1 5 (by decide), h2, h3 (by decide), h4 (-2) (by decide) dbFour, h5 dbFour⟩

/-- C5: the order assigner answers max(sibling orders) + 1, answers 1 for
an empty sibling group, and falls back to 1 when the database lookup
fails instead of propagating the error. -/
theorem claim5_order_assignment :
    (∀ (e : Unit) (parent : Option Nat), assign_category_order (.error e) parent = 1) ∧
    (∀ (db : List Category) (parent : Option Nat), siblingsOf db parent = [] →
        assign_category_order (.ok db) parent = 1) ∧
    (∀ (db : List Category) (parent : Option Nat), siblingsOf db parent ≠ [] →
        ∃ mx, mx ∈ (siblingsOf db parent).map (fun c => c.order) ∧
          (∀ o ∈ (siblingsOf db parent).map (fun c => c.order), o ≤ mx) ∧
          assign_category_order (.ok db) parent = mx + 1) := by
  refine ⟨fun e parent => rfl, ?_, ?_⟩
  · intro db parent hempty
    cases parent with
    | some p =>
      simp only [siblingsOf] at hempty
      simp [assign_category_order, hempty]
    | none =>
      simp only [siblingsOf] at hempty
      simp [assign_category_order, hempty]
  · intro db parent hne
    refine ⟨((siblingsOf db parent).map fun c => c.order).foldl max 0, ?_, ?_, ?_⟩
    · exact foldl_max_zero_mem _ (by simpa using hne)
    · exact fun o ho => foldl_max_ge_mem _ 0 o ho
    · cases parent with
      | some p => simp [assign_category_order, siblingsOf]
      | none => simp [assign_category_order, siblingsOf]

/-- C5 witness: on the four-node fixture the next order among the
children of the root is 3, the group under Sneakers is empty and yields
1, and a failed lookup yields 1. -/
theorem claim5_order_assignment_witness :
    assign_category_order (.error ()) (some 1) = 1 ∧
    assign_category_order (.ok dbFour) (some 3) = 1 ∧
    (∃ mx, mx ∈ (siblingsOf dbFour (some 1)).map (fun c => c.order) ∧
      (∀ o ∈ (siblingsOf dbFour (some 1)).map (fun c => c.order), o ≤ mx) ∧
      assign_category_order (.ok dbFour) (some 1) = mx + 1) := by
  obtain ⟨h1, h2, h3⟩ := claim5_order_assignment
  exact ⟨h1 () (some 1), h2 dbFour (some 3) (by decide), h3 dbFour (some 1) (by decide)⟩

/-- C7: cascade delete removes the node with the given id together with
every node of its subtree, and every surviving row's parent survives
with it, so no row references a deleted ancestor. -/
theorem claim7_cascade_delete (db : List Category) (n : Nat)
    (hfc : FindConsistent db) (hac : Acyclic db) :
    (∀ m ∈ db, m.id = n → m ∉ deleteCategory db n) ∧
    (∀ m ∈ db, inSubtree db n m.id = true → m ∉ deleteCategory db n) ∧
    (∀ m ∈ deleteCategory db n, ∀ p, m.parent = some p →
        ∀ q ∈ db, q.id = p → q ∈ deleteCategory db n) := by
  refine ⟨?_, ?_, ?_⟩
  · intro m hm hid hdel
    have hpos : 0 < db.length := List.length_pos.mpr (by rintro rfl; simp at hm)
    obtain ⟨K, hK⟩ : ∃ K, db.length = K + 1 := ⟨db.length - 1, by omega⟩
    have hsub : inSubtree db n m.id = true := by
      rw [inSubtree, hid, hK, ancestorChain, contains_iff_mem_nat]
      exact List.mem_cons_self _ _
    have := (List.mem_filter.mp hdel).2
    rw [hsub] at this
    simp at this
  · intro m hm hsub hdel
    have := (List.mem_filter.mp hdel).2
    rw [hsub] at this
    simp at this
  · intro m hm p hp q hq hqid
    have hmdb : m ∈ db := (List.mem_filter.mp hm).1
    have hmout : inSubtree db n m.id = false := by
      have := (List.mem_filter.mp hm).2
      simpa using this
    rw [deleteCategory, List.mem_filter]
    refine ⟨hq, ?_⟩
    suffices hqs : inSubtree db n q.id = false by simp [hqs]
    by_contra hcon
    have hqin : inSubtree db n q.id = true := by
      cases hval : inSubtree db n q.id with
      | false => exact absurd hval hcon
      | true => rfl
    have hpos : 0 < db.length := List.length_pos.mpr (by rintro rfl; simp at hmdb)
    obtain ⟨K, hK⟩ : ∃ K, db.length = K + 1 := ⟨db.length - 1, by omega⟩
    have hok : chainOk db db.length (some m.id) = true := hac m hmdb
    have hpar : parentOf db m.id = some p := by
      rw [parentOf, hfc m hmdb]
      exact hp
    have hokp : chainOk db K (some p) = true := by
      rw [hK, chainOk, hpar] at hok
      exact hok
    have hchainp : ancestorChain db db.length (some p) = ancestorChain db K (some p) :=
      ancestorChain_stable db K db.length (some p) (by omega) hokp
    have hchainm : ancestorChain db db.length (some m.id) =
        m.id :: ancestorChain db K (some p) := by
      rw [hK, ancestorChain, hpar]
    have hnm : inSubtree db n m.id = true := by
      rw [inSubtree, hchainm, contains_iff_mem_nat]
      rw [inSubtree, contains_iff_mem_nat, hqid, hchainp] at hqin
      exact List.mem_cons_of_mem _ hqin
    rw [hnm] at hmout
    exact absurd hmout (by simp)

/-- C7 witness: deleting the Shoes root of the four-node fixture removes
the root, its grandchild Sneakers, and leaves no row whose parent was
deleted. -/
theorem claim7_cascade_delete_witness :
    catShoes ∉ deleteCategory dbFour 1 ∧ catSneakers ∉ deleteCategory dbFour 1 := by
  obtain ⟨h1, h2, _⟩ := claim7_cascade_delete dbFour 1
    (by unfold FindConsistent; decide) (by unfold Acyclic; decide)
  exact ⟨h1 catShoes (by decide) rfl, h2 catSneakers (by decide) (by decide)⟩

/-- C1 fails as stated for an absent depth: the source serializer puts
every descendant of the starting node into its children list, not a
properly nested subtree of immediate children; on the chain
Shoes - Men's - Sneakers the children list of Shoes holds two entries
(Men's and Sneakers) instead of one. -/
theorem claim1_counterexample :
    serializeNode dbChain 4 none catShoes ≠ specNestedFull dbChain 4 catShoes := by
  intro h
  have h2 := congrArg (fun t => t.children.length) h
  exact absurd h2 (by decide)

/-- Helper: a serialization with depth 0 is the bare node, whatever the
fuel. -/
theorem serializeNode_depth_zero (db : List Category) :
    ∀ (f : Nat) (c : Category), serializeNode db f (some 0) c = ⟨c.id, []⟩ := by
  intro f c
  cases f with
  | zero => rfl
  | succ f => rfl

/-- C1 amended: depth 0 yields the node with an empty children list;
depth 1 yields the immediate children, each with an empty children list;
depth k > 1 yields the immediate children serialized with depth k - 1;
an absent depth puts the serialization of every descendant of the node,
immediate or not, into the children list, each again serialized with
absent depth (a flattened list rather than a nested subtree). -/
theorem claim1_depth_semantics :
    (∀ (db : List Category) (f : Nat) (c : Category),
        serializeNode db (f+1) (some 0) c = ⟨c.id, []⟩) ∧
    (∀ (db : List Category) (f : Nat) (c : Category),
        serializeNode db (f+1) (some 1) c =
          ⟨c.id, (childrenOf db c.id).map fun m => ⟨m.id, []⟩⟩) ∧
    (∀ (db : List Category) (f k : Nat) (c : Category),
        serializeNode db (f+1) (some (k+2)) c =
          ⟨c.id, (childrenOf db c.id).map (serializeNode db f (some (k+1)))⟩) ∧
    (∀ (db : List Category) (f : Nat) (c : Category),
        serializeNode db (f+1) none c =
          ⟨c.id, (descendantsOf db c.id).map (serializeNode db f none)⟩) ∧
    (∀ (db : List Category) (f : Nat) (c m : Category), m ∈ db →
        isDescendant db c.id m = true →
        serializeNode db f none m ∈ (serializeNode db (f+1) none c).children) := by
  refine ⟨fun db f c => rfl, ?_, fun db f k c => rfl, fun db f c => rfl, ?_⟩
  · intro db f c
    simp only [serializeNode]
    congr 1
    exact List.map_congr_left fun m _ => serializeNode_depth_zero db f m
  · intro db f c m hm hdesc
    simp only [serializeNode]
    exact List.mem_map_of_mem _ (by
      rw [descendantsOf, mem_sortByOrder, List.mem_filter]
      exact ⟨hm, hdesc⟩)

/-- C1 amended witness: in the three-node chain the grandchild Sneakers
appears directly in the children list of the Shoes root when depth is
absent. -/
theorem claim1_depth_semantics_witness :
    serializeNode dbChain 2 none catSneakers ∈
      (serializeNode dbChain 3 none catShoes).children := by
  exact claim1_depth_semantics.2.2.2.2 dbChain 2 catShoes catSneakers (by decide) (by decide)

theorem validateTlc_ok_truthy (db : List Category) (inst : Option Category)
    (data d : CategoryInput) (h : validateTlc db inst data = .ok d) :
    tlcTruthy d = tlcTruthy data := by
  rw [validateTlc] at h
  split at h
  · rename_i t heq
    split at h
    · injection h with h2
      subst h2
      rfl
    · split at h
      · simp at h
      · split at h
        · simp at h
        · rename_i hchoice hdup
          injection h with h2
          subst h2
          rw [tlcTruthy, tlcTruthy, heq]
          have hmem : pyLower t ∈ categoryChoicesValues := by
            have := hchoice
            simp [List.contains] at this
            simpa [List.elem_iff] using this
          have hne : (pyLower t != "") = true := by
            rw [categoryChoicesValues] at hmem
            simp at hmem
            rcases hmem with h1 | h1 <;> rw [h1] <;> rfl
          rename_i ht0
          have hne2 : (t != "") = true := by simpa using ht0
          simp [hne, hne2]
  · injection h with h2
    subst h2
    rfl

/-- Fixture: the row produced by creating Boots under catMens in
dbChain. -/
def catBoots : Category :=
  { id := 9, name := "Boots", slug := "boots", description := some "d",
    parent := some 2, order := 2 }

/-- Fixture input supplying both a parent and a root type. -/
def inpBoth : CategoryInput :=
  { name := some "Kids", description := some "kids", parent := some (some 1),
    top_level_category := some "clothing" }

/-- C3 fails as stated for the both-supplied case: the both-supplied
check of the source sits in the update branch only, so a create carrying
both a valid fresh root type and a parent passes validation and creates
a row carrying both, instead of failing with BothParentAndType. -/
theorem claim3_counterexample :
    parentTruthy inpBoth = true ∧ tlcTruthy inpBoth = true ∧
    ∃ db2 c, createCategory dbChain 3 5 inpBoth = .ok (db2, c) ∧
      c.parent = some 1 ∧ c.top_level_category = some "clothing" := by
  exact ⟨rfl, rfl, _, _, rfl, rfl, rfl⟩

/-- C3 corrected: a create supplying neither parent nor root type fails
with MissingParentOrType and creates nothing; the both-supplied check
lives in the update branch, so supplying both fails with
BothParentAndType only when validating an update whose root-type block
passed, while a create supplying both is not rejected by it. -/
theorem claim3_exactly_one_of_parent_or_type :
    (∀ (db : List Category) (maxDepth newId : Nat) (data : CategoryInput),
        parentTruthy data = false → tlcTruthy data = false →
        createCategory db maxDepth newId data = .error VErr.missingParentOrType) ∧
    (∀ (db : List Category) (maxDepth : Nat) (inst : Category) (data : CategoryInput),
        parentTruthy data = true → tlcTruthy data = true →
        ∀ d, validateTlc db (some inst) data = .ok d →
          validateInput db maxDepth (some inst) data = .error VErr.bothParentAndType) := by
  constructor
  · intro db maxDepth newId data hp ht
    have hval : validateTlc db none data = .ok data := by
      rw [validateTlc]
      cases hdt : data.top_level_category with
      | none => rfl
      | some t =>
        have ht0 : (t == "") = true := by
          rw [tlcTruthy, hdt] at ht
          simpa using ht
        simp [ht0]
    simp [createCategory, validateInput, hval, validateExclusive, hp, ht,
      Bind.bind, Except.bind, Pure.pure, Except.pure]
  · intro db maxDepth inst data hp ht d hd
    have hp2 : parentTruthy d = true := by
      obtain ⟨e1, _, _, _⟩ := validateTlc_ok_fields db (some inst) data d hd
      rw [parentTruthy, e1]
      rw [parentTruthy] at hp
      exact hp
    have ht2 : tlcTruthy d = true := by
      rw [validateTlc_ok_truthy db (some inst) data d hd]
      exact ht
    simp [validateInput, hd, validateExclusive, hp2, ht2,
      Bind.bind, Except.bind, Pure.pure, Except.pure]

/-- C3 amended witness: a create with neither field fails with
MissingParentOrType, and an update with both fields fails with
BothParentAndType. -/
theorem claim3_exactly_one_witness :
    createCategory dbChain 3 5 { description := some "d" } = .error VErr.missingParentOrType ∧
    validateInput dbChain 3 (some catMens) inpBoth = .error VErr.bothParentAndType := by
  constructor
  · exact claim3_exactly_one_of_parent_or_type.1 dbChain 3 5 _ rfl rfl
  · exact claim3_exactly_one_of_parent_or_type.2 dbChain 3 catMens inpBoth rfl rfl _ rfl

theorem createCategory_ok_inv (db db2 : List Category) (maxDepth newId : Nat)
    (data : CategoryInput) (c : Category)
    (h : createCategory db maxDepth newId data = .ok (db2, c)) :
    ∃ vd, validateInput db maxDepth none data = .ok vd ∧ db2 = db ++ [c] ∧
      c.top_level_category = vd.top_level_category := by
  rw [createCategory] at h
  obtain ⟨vd, hvd, h⟩ := exceptBind_ok h
  obtain ⟨saved, hsaved, h⟩ := exceptMap_ok h
  injection h with h2 h3
  subst h3
  refine ⟨vd, hvd, h2.symm, ?_⟩
  obtain ⟨_, _, e3, _, _⟩ := modelClean_ok_inv db _ _ hsaved
  rw [e3]
  split <;> rfl

/-- C6: a create supplying a root type already carried by an existing
row fails with DuplicateTopLevelType, leaving the tree unchanged, and a
successful create keeps every nonempty root type carried by at most one
row. -/
theorem claim6_root_type_singleton :
    (∀ (db : List Category) (maxDepth newId : Nat) (data : CategoryInput) (t : String),
        data.top_level_category = some t →
        categoryChoicesValues.contains (pyLower t) = true →
        (∃ c ∈ db, c.top_level_category = some (pyLower t)) →
        createCategory db maxDepth newId data = .error VErr.duplicateTopLevelType) ∧
    (∀ (db db2 : List Category) (maxDepth newId : Nat) (data : CategoryInput) (c : Category)
        (v : String), v ≠ "" →
        createCategory db maxDepth newId data = .ok (db2, c) →
        (∀ c1 ∈ db, ∀ c2 ∈ db, c1.top_level_category = some v →
            c2.top_level_category = some v → c1 = c2) →
        ∀ c1 ∈ db2, ∀ c2 ∈ db2, c1.top_level_category = some v →
            c2.top_level_category = some v → c1 = c2) := by
  constructor
  · intro db maxDepth newId data t ht hc hcar
    have ht0 : (t == "") = false := by
      cases hte : (t == "") with
      | false => rfl
      | true =>
        have : t = "" := by simpa using hte
        rw [this] at hc
        simp [pyLower, categoryChoicesValues] at hc
    have hany : db.any (fun cc => cc.top_level_category == some (pyLower t) &&
        Option.all (fun i => cc.id != i.id) (none : Option Category)) = true := by
      rw [List.any_eq_true]
      obtain ⟨cc, hmem, htl⟩ := hcar
      exact ⟨cc, hmem, by simp [htl]⟩
    have herr : validateTlc db none data = .error VErr.duplicateTopLevelType := by
      rw [validateTlc]
      rw [ht]
      simp only [ht0, Bool.false_eq_true, if_false, hc, Bool.not_true, hany, if_true]
    simp [createCategory, validateInput, herr, Bind.bind, Except.bind]
  · intro db db2 maxDepth newId data c v hv h hmono
    obtain ⟨vd, hvd, hdb2, htlc⟩ := createCategory_ok_inv db db2 maxDepth newId data c h
    obtain ⟨htl, _, _⟩ := validateInput_ok_inv db maxDepth none data vd hvd
    have hkey : c.top_level_category = some v → ∀ x ∈ db, x.top_level_category ≠ some v := by
      intro hcv x hx hxv
      have hnone := validateTlc_ok_nodup db none data vd htl v hv (by rw [← htlc]; exact hcv)
      rw [← Bool.not_eq_true, List.any_eq_true] at hnone
      exact hnone ⟨x, hx, by simp [hxv]⟩
    subst hdb2
    intro c1 hc1 c2 hc2 h1v h2v
    rw [List.mem_append] at hc1 hc2
    rcases hc1 with hc1 | hc1 <;> rcases hc2 with hc2 | hc2
    · exact hmono c1 hc1 c2 hc2 h1v h2v
    · have hc2c : c2 = c := by simpa using hc2
      subst hc2c
      exact absurd h1v (hkey h2v c1 hc1)
    · have hc1c : c1 = c := by simpa using hc1
      subst hc1c
      exact absurd h2v (hkey h1v c2 hc2)
    · have hc1c : c1 = c := by simpa using hc1
      have hc2c : c2 = c := by simpa using hc2
      rw [hc1c, hc2c]

/-- C6 witness: recreating the shoes root type fails with
DuplicateTopLevelType, and a successful child create keeps the shoes
carrier unique. -/
theorem claim6_root_type_singleton_witness :
    createCategory dbChain 3 9
      { description := some "d", top_level_category := some "Shoes" } =
      .error VErr.duplicateTopLevelType ∧
    catShoes = catShoes := by
  constructor
  · exact claim6_root_type_singleton.1 dbChain 3 9 _ "Shoes" rfl (by decide)
      ⟨catShoes, by decide, rfl⟩
  · have hok : createCategory dbChain 3 9
        { description := some "d", name := some "Boots", parent := some (some 2) } =
        .ok (dbChain ++ [catBoots], catBoots) := by rfl
    exact claim6_root_type_singleton.2 dbChain _ 3 9 _ _ "shoes" (by decide) hok
      (by decide) catShoes (by decide) catShoes (by decide) rfl rfl

/-- Row built by a create that supplies a parent, after Category.clean
has filled the slug and the order. -/
def createdChild (db : List Category) (newId p : Nat) (nm desc : Option String) : Category :=
  { id := newId, name := nm.getD "",
    slug := findFreeSlug db newId (slugify (nm.getD "")) (db.length + 1)
      (slugify (nm.getD "")) 1,
    description := desc, parent := some p, status := "active",
    order := assign_category_order (.ok db) (some p) }

theorem claim2_depth_bound (db : List Category) (maxDepth newId p : Nat)
    (data : CategoryInput)
    (hpar : data.parent = some (some p))
    (htlc : data.top_level_category = none)
    (hst : data.status = none)
    (hpok : chainOk db db.length (some p) = true)
    (hfresh : findCat db newId = none)
    (hri : RefIntegrity db)
    (hpin : (findCat db p).isSome = true) :
    (depthOfId db p = maxDepth →
        createCategory db maxDepth newId data = .error VErr.maxDepthExceeded) ∧
    (depthOfId db p + 1 ≤ maxDepth →
      ∃ c, createCategory db maxDepth newId data = .ok (db ++ [c], c) ∧ c.id = newId ∧
        c.parent = some p ∧
        depthOfId (db ++ [c]) newId = depthOfId db p + 1 ∧
        (Acyclic db → (∀ m ∈ db, depthOfId db m.id ≤ maxDepth) →
          ∀ m ∈ db ++ [c], depthOfId (db ++ [c]) m.id ≤ maxDepth)) := by
  cases data with
  | mk nm desc par st tl =>
  dsimp only at hpar htlc hst
  subst hpar
  subst htlc
  subst hst
  have hL := depthLoop_eq db maxDepth db.length (some p) 1 hpok
  have hpos := chainLen_pos db db.length p hpok
  constructor
  · intro hdepth
    rw [depthOfId] at hdepth
    have hloop : depthLoop db maxDepth db.length (some p) 1 = true := by
      rw [hL, decide_eq_true_eq]
      exact ⟨hpos, by omega⟩
    simp [createCategory, validateInput, validateTlc, validateExclusive,
      validateDepthBlock, hloop, parentTruthy, tlcTruthy,
      Bind.bind, Except.bind, Pure.pure, Except.pure]
  · intro hdepth
    rw [depthOfId] at hdepth
    have hloop : depthLoop db maxDepth db.length (some p) 1 = false := by
      rw [hL]
      simp only [decide_eq_false_iff_not]
      omega
    have hval : validateInput db maxDepth none ⟨nm, desc, some (some p), none, none⟩ =
        .ok ⟨nm, desc, some (some p), none, none⟩ := by
      simp [validateInput, validateTlc, validateExclusive, validateDepthBlock, hloop,
        parentTruthy, tlcTruthy, Bind.bind, Except.bind, Pure.pure, Except.pure]
    have hcc : createCategory db maxDepth newId ⟨nm, desc, some (some p), none, none⟩ =
        .ok (db ++ [createdChild db newId p nm desc], createdChild db newId p nm desc) := by
      rw [createCategory, hval]
      rfl
    have hfind2 : findCat (db ++ [createdChild db newId p nm desc]) newId =
        some (createdChild db newId p nm desc) := by
      rw [findCat, List.find?_append]
      rw [findCat] at hfresh
      rw [hfresh]
      simp [createdChild, Option.or]
    have hpl : parentOf (db ++ [createdChild db newId p nm desc]) newId = some p := by
      rw [parentOf, hfind2]
      rfl
    obtain ⟨hok2, hlen2, _⟩ := chain_append db [createdChild db newId p nm desc] hri
      db.length (some p) (by intro i hi; injection hi with hi; subst hi; exact hpin) hpok
    have hlendb2 : (db ++ [createdChild db newId p nm desc]).length = db.length + 1 := by
      simp
    have hdnew : depthOfId (db ++ [createdChild db newId p nm desc]) newId =
        depthOfId db p + 1 := by
      rw [depthOfId, hlendb2, chainLen, hpl, hlen2, depthOfId]
      omega
    refine ⟨createdChild db newId p nm desc, hcc, rfl, rfl, hdnew, ?_⟩
    intro hac hbound m hm
    rw [List.mem_append] at hm
    rcases hm with hm | hm
    · have hokm := hac m hm
      have hsomem : (findCat db m.id).isSome = true := findCat_isSome_of_mem db m hm
      obtain ⟨hok3, hlen3, _⟩ := chain_append db [createdChild db newId p nm desc] hri
        db.length (some m.id) (by intro i hi; injection hi with hi; subst hi; exact hsomem) hokm
      rw [depthOfId, hlendb2]
      rw [chainLen_stable _ db.length (db.length + 1) (some m.id) (by omega) hok3]
      rw [hlen3]
      exact hbound m hm
    · have hmc : m = createdChild db newId p nm desc := by simpa using hm
      subst hmc
      have hid : depthOfId (db ++ [createdChild db newId p nm desc])
          (createdChild db newId p nm desc).id = depthOfId db p + 1 := hdnew
      rw [hid, depthOfId]
      omega

/-- C2 witness: in the three-node chain with max_depth 3, creating under
depth-3 Sneakers fails with MaxDepthExceeded while creating under
depth-2 Men's succeeds and lands the new row at depth 3. -/
theorem claim2_depth_bound_witness :
    createCategory dbChain 3 9
      { name := some "Kids", description := some "d", parent := some (some 3) } =
      .error VErr.maxDepthExceeded ∧
    createCategory dbChain 3 9
      { name := some "Boots", description := some "d", parent := some (some 2) } =
      .ok (dbChain ++ [createdChild dbChain 9 2 (some "Boots") (some "d")],
        createdChild dbChain 9 2 (some "Boots") (some "d")) ∧
    depthOfId (dbChain ++ [createdChild dbChain 9 2 (some "Boots") (some "d")]) 9 =
      depthOfId dbChain 2 + 1 := by
  refine ⟨(claim2_depth_bound dbChain 3 9 3 _ rfl rfl rfl (by decide) (by decide)
    (by unfold RefIntegrity; decide) (by decide)).1 (by decide), by rfl, by decide⟩

/-- C8: updating a root rejects a supplied name with
ImmutableTopLevelField (immutable name), rejects a supplied parent with
the immutable-parent error, any update supplying root_type never
succeeds, and a successful update of a root implies the input carried
none of name, parent, root_type, with the row's id and parent
unchanged - only description and status can change. -/
theorem claim8_root_immutable :
    (∀ (db : List Category) (m : Nat) (inst : Category) (nm : String)
        (desc st : Option String), inst.parent = none →
        (∀ s, st = some s → categoryStatusValues.contains s = true) →
        updateCategory db m inst ⟨some nm, desc, none, st, none⟩ =
          .error VErr.immutableTopLevelName) ∧
    (∀ (db : List Category) (m : Nat) (inst : Category) (pv : Option Nat)
        (desc st : Option String), inst.parent = none →
        (∀ s, st = some s → categoryStatusValues.contains s = true) →
        validateDepthBlock db m ⟨none, desc, some pv, st, none⟩ = .ok () →
        updateCategory db m inst ⟨none, desc, some pv, st, none⟩ =
          .error VErr.immutableTopLevelParent) ∧
    (∀ (db : List Category) (m : Nat) (inst : Category) (data : CategoryInput),
        data.top_level_category.isSome = true →
        ∀ c, updateCategory db m inst data ≠ .ok c) ∧
    (∀ (db : List Category) (m : Nat) (inst : Category) (data : CategoryInput)
        (c : Category), inst.parent = none → updateCategory db m inst data = .ok c →
        data.name = none ∧ data.parent = none ∧ data.top_level_category = none ∧
        c.id = inst.id ∧ c.parent = none) := by
  refine ⟨?_, ?_, ?_, ?_⟩
  · intro db m inst nm desc st hroot hstv
    cases st with
    | none =>
      simp [updateCategory, validateInput, validateTlc, validateExclusive,
        validateDepthBlock, updateStatus, updateGuards, parentTruthy, tlcTruthy, hroot,
        Bind.bind, Except.bind, Pure.pure, Except.pure]
    | some s =>
      have hs2 : s ∈ categoryStatusValues := by
        simpa [List.contains, List.elem_iff] using hstv s rfl
      simp [updateCategory, validateInput, validateTlc, validateExclusive,
        validateDepthBlock, updateStatus, updateGuards, parentTruthy, tlcTruthy,
        hroot, hs2, Bind.bind, Except.bind, Pure.pure, Except.pure]
  · intro db m inst pv desc st hroot hstv hdb
    cases pv with
    | none =>
      cases st with
      | none =>
        simp [updateCategory, validateInput, validateTlc, validateExclusive,
          validateDepthBlock, updateStatus, updateGuards, parentTruthy, tlcTruthy, hroot,
          Bind.bind, Except.bind, Pure.pure, Except.pure]
      | some s =>
        have hs2 : s ∈ categoryStatusValues := by
          simpa [List.contains, List.elem_iff] using hstv s rfl
        simp [updateCategory, validateInput, validateTlc, validateExclusive,
          validateDepthBlock, updateStatus, updateGuards, parentTruthy, tlcTruthy,
          hroot, hs2, Bind.bind, Except.bind, Pure.pure, Except.pure]
    | some q =>
      cases st with
      | none =>
        simp [updateCategory, validateInput, validateTlc, validateExclusive,
          updateStatus, updateGuards, parentTruthy, tlcTruthy, hroot, hdb,
          Bind.bind, Except.bind, Pure.pure, Except.pure]
      | some s =>
        have hs2 : s ∈ categoryStatusValues := by
          simpa [List.contains, List.elem_iff] using hstv s rfl
        simp [updateCategory, validateInput, validateTlc, validateExclusive,
          updateStatus, updateGuards, parentTruthy, tlcTruthy, hroot, hdb, hs2,
          Bind.bind, Except.bind, Pure.pure, Except.pure]
  · intro db m inst data hts c h
    rw [updateCategory] at h
    split at h
    · simp at h
    · rename_i vd hvd
      obtain ⟨hT, _, _⟩ := validateInput_ok_inv db m (some inst) data vd hvd
      have hpres := validateTlc_ok_presence db (some inst) data vd hT
      rw [hts] at hpres
      split at h
      · simp at h
      · rename_i inst1 hst
        split at h
        · simp at h
        · rename_i u hgu
          rw [updateGuards, hpres] at hgu
          by_cases h1 : (inst1.parent.isNone && vd.name.isSome) = true
          · rw [if_pos h1] at hgu
            simp at hgu
          · rw [if_neg h1] at hgu
            by_cases h2 : (inst1.parent.isNone && vd.parent.isSome) = true
            · rw [if_pos h2] at hgu
              simp at hgu
            · rw [if_neg h2] at hgu
              simp at hgu
  · intro db m inst data c hroot h
    rw [updateCategory] at h
    split at h
    · simp at h
    · rename_i vd hvd
      obtain ⟨hT, _, _⟩ := validateInput_ok_inv db m (some inst) data vd hvd
      obtain ⟨ef1, ef2, ef3, ef4⟩ := validateTlc_ok_fields db (some inst) data vd hT
      have hpres := validateTlc_ok_presence db (some inst) data vd hT
      split at h
      · simp at h
      · rename_i inst1 hst
        have hi1 : inst1.id = inst.id ∧ inst1.parent = inst.parent := by
          rw [updateStatus] at hst
          split at hst
          · split at hst
            · simp at hst
            · injection hst with h2
              rw [← h2]
              exact ⟨rfl, rfl⟩
          · injection hst with h2
            rw [← h2]
            exact ⟨rfl, rfl⟩
        split at h
        · simp at h
        · rename_i u hgu
          have hg1 : (inst1.parent.isNone && vd.name.isSome) = false := by
            by_cases h1 : (inst1.parent.isNone && vd.name.isSome) = true
            · rw [updateGuards, if_pos h1] at hgu
              simp at hgu
            · simpa using h1
          have hg2 : (inst1.parent.isNone && vd.parent.isSome) = false := by
            by_cases h2 : (inst1.parent.isNone && vd.parent.isSome) = true
            · rw [updateGuards, if_neg (by simp [hg1]), if_pos h2] at hgu
              simp at hgu
            · simpa using h2
          have hg3 : vd.top_level_category.isSome = false := by
            by_cases h3 : vd.top_level_category.isSome = true
            · rw [updateGuards, if_neg (by simp [hg1]), if_neg (by simp [hg2]),
                if_pos h3] at hgu
              simp at hgu
            · simpa using h3
          have hname : vd.name = none := by
            cases hvn : vd.name with
            | none => rfl
            | some n =>
              rw [hi1.2, hroot, hvn] at hg1
              simp at hg1
          have hpar : vd.parent = none := by
            cases hvp : vd.parent with
            | none => rfl
            | some q =>
              rw [hi1.2, hroot, hvp] at hg2
              simp at hg2
          have htlcn : vd.top_level_category = none := by
            cases hvt : vd.top_level_category with
            | none => rfl
            | some t =>
              rw [hvt] at hg3
              simp at hg3
          simp only [updateParent, hname, hpar, Option.getD_none] at h
          obtain ⟨e1, e2, _, _, _⟩ := modelClean_ok_inv db _ c h
          refine ⟨by rw [← ef2, hname], by rw [← ef1, hpar], ?_, ?_, ?_⟩
          · rw [htlcn] at hpres
            cases hdt : data.top_level_category with
            | none => rfl
            | some t =>
              rw [hdt] at hpres
              simp at hpres
          · rw [e1, hi1.1]
          · rw [e2, hi1.2, hroot]

/-- Fixture: the Shoes root after a description-only update. -/
def catShoesDesc : Category := { catShoes with description := some "nd" }

/-- C8 witness: on the three-node chain, renaming or reparenting the root
fails with the immutable-field errors, supplying root_type never
succeeds, and a description-only update of the root succeeds keeping id
and parent. -/
theorem claim8_root_immutable_witness :
    updateCategory dbChain 3 catShoes { name := some "Feet" } =
      .error VErr.immutableTopLevelName ∧
    updateCategory dbChain 3 catShoes { parent := some (some 2) } =
      .error VErr.immutableTopLevelParent ∧
    updateCategory dbChain 3 catMens { top_level_category := some "clothing" } ≠
      .ok catMens ∧
    (CategoryInput.mk none (some "nd") none none none).name = none ∧
    catShoesDesc.id = catShoes.id ∧ catShoesDesc.parent = none := by
  obtain ⟨p1, p2, p3, p4⟩ := claim8_root_immutable
  refine ⟨p1 dbChain 3 catShoes "Feet" none none rfl (by intro s hs; cases hs), ?_,
    p3 dbChain 3 catMens { top_level_category := some "clothing" } rfl catMens, ?_⟩
  · exact p2 dbChain 3 catShoes (some 2) none none rfl (by intro s hs; cases hs) (by rfl)
  · have h4 := p4 dbChain 3 catShoes (CategoryInput.mk none (some "nd") none none none)
      catShoesDesc rfl (by rfl)
    exact ⟨h4.1, h4.2.2.2.1, h4.2.2.2.2⟩

/-- C9: reparenting a non-root node fails with SelfParent when the new
parent is the node itself, fails with InvalidParentIsRoot when the new
parent is a root node, and otherwise, with the depth walk passing, the
reparent is applied. -/
theorem claim9_reparent_rules :
    (∀ (db : List Category) (m : Nat) (inst : Category) (q : Nat)
        (nmo desc : Option String), inst.parent = some q →
        validateDepthBlock db m ⟨nmo, desc, some (some inst.id), none, none⟩ = .ok () →
        updateCategory db m inst ⟨nmo, desc, some (some inst.id), none, none⟩ =
          .error VErr.selfParent) ∧
    (∀ (db : List Category) (m : Nat) (inst : Category) (q p : Nat)
        (desc : Option String), inst.parent = some q → p ≠ inst.id →
        parentOf db p = none →
        validateDepthBlock db m ⟨none, desc, some (some p), none, none⟩ = .ok () →
        updateCategory db m inst ⟨none, desc, some (some p), none, none⟩ =
          .error VErr.parentIsRoot) ∧
    (∀ (db : List Category) (m : Nat) (inst : Category) (q p : Nat),
        inst.parent = some q → p ≠ inst.id → (parentOf db p).isNone = false →
        validateDepthBlock db m ⟨none, none, some (some p), none, none⟩ = .ok () →
        categoryStatusValues.contains inst.status = true →
        inst.top_level_category = none → (inst.slug == "") = false →
        (inst.order == 0) = false →
        updateCategory db m inst ⟨none, none, some (some p), none, none⟩ =
          .ok { inst with parent := some p }) := by
  refine ⟨?_, ?_, ?_⟩
  · intro db m inst q nmo desc hnp hdb
    cases nmo with
    | none =>
      simp [updateCategory, validateInput, validateTlc, validateExclusive, hdb,
        updateStatus, updateGuards, updateParent, hnp, parentTruthy, tlcTruthy,
        Bind.bind, Except.bind, Pure.pure, Except.pure]
    | some n =>
      simp [updateCategory, validateInput, validateTlc, validateExclusive, hdb,
        updateStatus, updateGuards, updateParent, hnp, parentTruthy, tlcTruthy,
        Bind.bind, Except.bind, Pure.pure, Except.pure]
  · intro db m inst q p desc hnp hne hrp hdb
    simp [updateCategory, validateInput, validateTlc, validateExclusive, hdb,
      updateStatus, updateGuards, updateParent, hnp, hne, hrp, parentTruthy, tlcTruthy,
      Bind.bind, Except.bind, Pure.pure, Except.pure]
  · intro db m inst q p hnp hne hrp hdb hsv htn hsl hor
    simp [updateCategory, validateInput, validateTlc, validateExclusive, hdb,
      updateStatus, updateGuards, updateParent, modelClean, cleanTlc,
      hnp, hne, hrp, hsv, htn, hsl, hor, parentTruthy, tlcTruthy,
      Bind.bind, Except.bind, Pure.pure, Except.pure]
    simpa [List.contains, List.elem_iff] using hsv

/-- C9 witness: on the four-node fixture, reparenting Womens to itself
fails with SelfParent, to the root fails with InvalidParentIsRoot, and
to Men's succeeds. -/
theorem claim9_reparent_rules_witness :
    updateCategory dbFour 3 catWomens { parent := some (some 4) } =
      .error VErr.selfParent ∧
    updateCategory dbFour 3 catWomens { parent := some (some 1) } =
      .error VErr.parentIsRoot ∧
    updateCategory dbFour 3 catWomens { parent := some (some 2) } =
      .ok { catWomens with parent := some 2 } := by
  obtain ⟨p1, p2, p3⟩ := claim9_reparent_rules
  exact ⟨p1 dbFour 3 catWomens 1 none none rfl (by rfl),
    p2 dbFour 3 catWomens 1 1 none rfl (by decide) rfl (by rfl),
    p3 dbFour 3 catWomens 1 2 rfl (by decide) rfl (by rfl) (by decide) rfl rfl rfl⟩

/-- C4 fails as stated: an update that renames a non-root node sets the
slug to the plain slugified name with no collision suffix, even when a
distinct node already owns that slug; the dedup loop would have answered
mens-1. -/
theorem claim4_counterexample :
    updateCategory dbFour 3 catWomens { name := some "Mens" } =
      .ok { catWomens with name := "Mens", slug := "mens" } ∧
    catMens ∈ dbFour ∧ catMens.id ≠ catWomens.id ∧ catMens.slug = "mens" ∧
    findFreeSlug dbFour catWomens.id (slugify "Mens") (dbFour.length + 1)
      (slugify "Mens") 1 = "mens-1" := by
  exact ⟨rfl, by decide, by decide, rfl, rfl⟩

/-- C4 amended: an update of a non-root node that supplies a new name
sets the slug to slugify(name) directly, with no -1, -2 dedup suffix;
the dedup loop of Category.clean runs only when the stored slug is
empty, which an update never leaves it. -/
theorem claim4_update_slug_plain :
    ∀ (db : List Category) (m : Nat) (inst : Category) (q : Nat) (n : String),
      inst.parent = some q →
      categoryStatusValues.contains inst.status = true →
      inst.top_level_category = none → (slugify n == "") = false →
      (inst.order == 0) = false →
      updateCategory db m inst ⟨some n, none, none, none, none⟩ =
        .ok { inst with name := n, slug := slugify n } := by
  intro db m inst q n hnp hsv htn hsl hor
  simp [updateCategory, validateInput, validateTlc, validateExclusive,
    validateDepthBlock, updateStatus, updateGuards, updateParent, modelClean, cleanTlc,
    hnp, hsv, htn, hsl, hor, parentTruthy, tlcTruthy,
    Bind.bind, Except.bind, Pure.pure, Except.pure]
  simpa [List.contains, List.elem_iff] using hsv

/-- C4 amended witness: renaming Sneakers to Runners stores the plain
slug slugify("Runners"). -/
theorem claim4_update_slug_plain_witness :
    updateCategory dbFour 3 catSneakers { name := some "Runners" } =
      .ok { catSneakers with name := "Runners", slug := slugify "Runners" } := by
  exact claim4_update_slug_plain dbFour 3 catSneakers 2 "Runners" rfl rfl rfl
    (by decide) (by decide)

end ShoeShop
